import Mathlib

/-!
Verification development for the QuickDeliver customer-service core:
the hybrid recommendation engine (`utils/ml_recommendations.py`) and the
conversation-state tracker (`utils/conversation_manager.py`).

The Python code is shallowly embedded:
* floats become exact rationals (`ℚ`);
* Python dicts become association lists (`List (k × v)`), preserving
  insertion order, with an `if`-based association lookup `alookup` for `dict.get`;
* `numpy` argsort composed with `[::-1]` is modelled as a stable ascending
  insertion sort followed by `List.reverse`, and Python's stable
  `sorted(..., reverse=True)` as a stable descending insertion sort;
* `datetime` values are abstracted to integer day numbers: an order date is
  `Option Int` (`none` when `strptime` would fail), and `datetime.now()`
  becomes an explicit day-number argument;
* the input data (`MOCK_USERS`, `RESTAURANT_RECOMMENDATIONS` from
  `utils.data`) is passed as explicit arguments, and the externally built
  cosine similarity matrix is an `Option (List (List ℚ))` argument, `none`
  modelling `self.similarity_matrix is None`.
-/

namespace CSChat

/-! ## String helpers

Python string primitives used by the code (`in` substring test,
`str.lower`, `str.split`, `str.isdigit` + `int`), re-implemented over
`List Char` so that they evaluate in the kernel. -/

/-- Tests whether `needle` occurs at the start of the second list. -/
def subAt : List Char → List Char → Bool
  | [], _ => true
  | _ :: _, [] => false
  | a :: as, b :: bs => a = b && subAt as bs

/-- Tests whether `needle` occurs anywhere inside the second list
(Python's `needle in hay`). -/
def hasSub (needle : List Char) : List Char → Bool
  | [] => subAt needle []
  | c :: rest => subAt needle (c :: rest) || hasSub needle rest

/-- Python `word in message` on strings. -/
def strContains (hay : List Char) (needle : String) : Bool :=
  hasSub needle.toList hay

/-- Python `str.lower()` (ASCII model). -/
def strLower (s : String) : List Char := s.toList.map Char.toLower

/-- Python `str.split()` with no argument: split on whitespace runs,
dropping empty tokens. -/
def splitTokens (sep : Char → Bool) : List Char → List Char → List (List Char)
  | [], cur => if cur = [] then [] else [cur.reverse]
  | c :: rest, cur =>
      if sep c then
        (if cur = [] then [] else [cur.reverse]) ++ splitTokens sep rest []
      else splitTokens sep rest (c :: cur)

/-- Python `[int(x) for x in tokens if x.isdigit()]` on one token:
`some n` when every character is a digit (and the token is nonempty). -/
def tokToNat (t : List Char) : Option Nat :=
  if t ≠ [] ∧ t.all Char.isDigit then
    some (t.foldl (fun acc c => acc * 10 + (c.toNat - 48)) 0)
  else none

/-- Python dict lookup (`d.get(k)` / `d[k]`) on an insertion-ordered
association list. -/
def alookup {β : Type} (k : String) : List (String × β) → Option β
  | [] => none
  | (k2, v) :: t => if k2 = k then some v else alookup k t

/-! ## Conversation manager (`utils/conversation_manager.py`) -/

/-- One entry of `conversation_state['conversation_flow']`. -/
structure FlowEntry where
  role : String
  message : String
  timestamp : String
  topic : Option String
deriving DecidableEq

/-- The `conversation_state` dict of `ConversationManager`. -/
structure ConversationState where
  current_topic : Option String
  context : List (String × String)
  message_count : Nat
  last_user_message : Option String
  last_assistant_message : Option String
  conversation_flow : List FlowEntry
deriving DecidableEq

/-- State built by `ConversationManager.__init__` (and `reset_conversation`). -/
def initialConversationState : ConversationState :=
  { current_topic := none
    context := []
    message_count := 0
    last_user_message := none
    last_assistant_message := none
    conversation_flow := [] }

/-- Keyword table of `ConversationManager._detect_topic`, in source order. -/
def topicTable : List (List String × String) :=
  [ (["refund", "return", "money back", "cancel order"], "refund_request")
  , (["track", "order status", "delivery", "where is my order"], "order_tracking")
  , (["bill", "payment", "charge", "subscription"], "billing_inquiry")
  , (["recommend", "suggest", "restaurant", "food"], "recommendations")
  , (["account", "profile", "settings", "password"], "account_management") ]

/-- The `_detect_topic` method: lowercase the message, then walk the
`if`/`elif` chain of keyword sets in source order. -/
def detectTopic (message : String) : Option String :=
  let ml := strLower message
  if (["refund", "return", "money back", "cancel order"].any fun w => strContains ml w) then
    some "refund_request"
  else if (["track", "order status", "delivery", "where is my order"].any fun w => strContains ml w) then
    some "order_tracking"
  else if (["bill", "payment", "charge", "subscription"].any fun w => strContains ml w) then
    some "billing_inquiry"
  else if (["recommend", "suggest", "restaurant", "food"].any fun w => strContains ml w) then
    some "recommendations"
  else if (["account", "profile", "settings", "password"].any fun w => strContains ml w) then
    some "account_management"
  else none

/-- Generic first-match-wins keyword matcher, written from the spec words of
§4.6 ("a prioritized sequence of (predicate, topic-tag) pairs; first matching
category wins"); compared against `detectTopic` in the claim-7 theorem. -/
def priorityMatch (ml : List Char) : List (List String × String) → Option String
  | [] => none
  | (ws, t) :: rest => if ws.any (fun w => strContains ml w) then some t else priorityMatch ml rest

/-- The `add_user_message` method. The wall-clock ISO timestamp written into
the flow entry is passed as the `now` argument. -/
def addUserMessage (s : ConversationState) (message : String) (now : String) :
    ConversationState :=
  let s1 : ConversationState :=
    { s with last_user_message := some message, message_count := s.message_count + 1 }
  let topic := detectTopic message
  let s2 : ConversationState :=
    match topic with
    | some t => { s1 with current_topic := some t }
    | none => s1
  { s2 with conversation_flow :=
      s2.conversation_flow ++ [⟨"user", message, now, topic⟩] }

/-- The `add_assistant_message` method. -/
def addAssistantMessage (s : ConversationState) (message : String) (now : String) :
    ConversationState :=
  { s with
    last_assistant_message := some message
    conversation_flow :=
      s.conversation_flow ++ [⟨"assistant", message, now, s.current_topic⟩] }

/-! ## Data model of the recommendation engine -/

/-- One entry of a user's `orders` list in `MOCK_USERS`. The `date` field is
the order's calendar date as a day number, `none` when the date string would
fail `strptime(..., '%Y-%m-%d')`. -/
structure Order where
  restaurant : String
  total : ℚ
  status : String
  date : Option Int
deriving DecidableEq

/-- One entry of the static `RESTAURANT_RECOMMENDATIONS` catalog (field set
per spec §6: the catalog provider supplies name, cuisine, rating and a
delivery-time label). -/
structure Restaurant where
  name : String
  cuisine : String
  rating : ℚ
  delivery_time : String
deriving DecidableEq

/-- `MOCK_USERS` as an association list username ↦ order history. -/
abbrev UserData := List (String × List Order)

/-- A recommendation-record dict as returned by the engine. Catalog fields are
always present; the score/type keys are `none` when the corresponding dict key
is absent (e.g. in the static fallback lists). -/
structure RecInfo where
  name : String
  cuisine : String
  rating : ℚ
  delivery_time : String
  recommendation_score : Option ℚ := none
  final_score : Option ℚ := none
  recommendation_type : Option String := none
deriving DecidableEq

/-- View of a raw catalog entry as a recommendation record (used by the
static fallback of `get_personalized_recommendations`). -/
def restToInfo (r : Restaurant) : RecInfo :=
  { name := r.name, cuisine := r.cuisine, rating := r.rating
    delivery_time := r.delivery_time }

/-! ## Interaction matrix (`_build_user_item_matrix`, `_calculate_interaction_weight`) -/

/-- The `status_weights` dict of `_calculate_interaction_weight`. -/
def statusWeights : List (String × ℚ) :=
  [("Delivered", 1), ("In Transit", 4/5), ("Preparing", 3/5), ("Cancelled", 1/10)]

/-- The `_calculate_interaction_weight` method. -/
def calcInteractionWeight (total : ℚ) (status : String) : ℚ :=
  let base_weight : ℚ := 1
  let value_weight : ℚ := min (total / 500) 2
  let status_weight : ℚ := (alookup status statusWeights).getD (1/2)
  base_weight * value_weight * status_weight

/-- `MOCK_USERS[u]['orders']` with the `.get` defaults of the source. -/
def ordersOf (data : UserData) (u : String) : List Order :=
  (alookup u data).getD []

/-- Row index of `self.user_item_matrix`: exactly the users for which the
order loop created a key in `user_restaurant_interactions` — those with at
least one order. -/
def interactionUsers (data : UserData) : List String :=
  (data.filter fun p => ¬p.2.isEmpty).map Prod.fst

/-- Column set of `self.user_item_matrix`: every restaurant observed in any
order. Python iterates a `set`; the embedding fixes a deterministic
representative order via `List.dedup`. -/
def allRestaurantCols (data : UserData) : List String :=
  ((data.filter fun p => ¬p.2.isEmpty).flatMap fun p => p.2.map (·.restaurant)).dedup

/-- One cell of `self.user_item_matrix`: the accumulated interaction weight
of user `u` at restaurant `r`. -/
def affinity (data : UserData) (u r : String) : ℚ :=
  (ordersOf data u).foldl
    (fun acc o => if o.restaurant = r then acc + calcInteractionWeight o.total o.status else acc) 0

/-! ## Delivery-time parsing and restaurant features (`_parse_delivery_time`,
`_build_restaurant_features`) -/

/-- The `_parse_delivery_time` method: whitespace-split the label, keep the
tokens that satisfy `str.isdigit`, convert them with `int`, then average the
first two / take the single one / default to `30.0`. -/
def parseDeliveryTime (s : String) : ℚ :=
  let numbers := (splitTokens Char.isWhitespace s.toList []).filterMap tokToNat
  match numbers with
  | a :: b :: _ => ((a : ℚ) + (b : ℚ)) / 2
  | [a] => (a : ℚ)
  | [] => 30

/-- Cuisine one-hot columns: the set of cuisines present in the static
catalog (`cuisine_types`), in deterministic representative order. -/
def cuisineTypes (catalog : List Restaurant) : List String :=
  (catalog.map (·.cuisine)).dedup

/-- Catalog lookup by name, as the linear search of
`_build_restaurant_features` / `_get_restaurant_info` does it. -/
def findCatalog (catalog : List Restaurant) (name : String) : Option Restaurant :=
  catalog.find? fun r => r.name = name

/-- Feature row of one restaurant: rating, numeric delivery time, and the
cuisine (whose one-hot indicator is 1) — `none` cuisine encodes the all-zero
one-hot row of restaurants absent from the catalog. -/
def restaurantFeature (catalog : List Restaurant) (name : String) :
    ℚ × ℚ × Option String :=
  match findCatalog catalog name with
  | some info => (info.rating, parseDeliveryTime info.delivery_time, some info.cuisine)
  | none => (4, 30, none)

/-- Row index of `self.restaurant_features`: restaurants appearing in any
order or in the static catalog, empty names skipped. -/
def featureIndex (data : UserData) (catalog : List Restaurant) : List String :=
  (((data.flatMap fun p => p.2.map (·.restaurant)) ++ catalog.map (·.name)).dedup).filter
    (fun r => r ≠ "")

/-! ## User profiles (`_build_user_profiles`) -/

/-- A `user_profiles[username]` dict. -/
structure UserProfile where
  avg_order_value : ℚ
  preferred_cuisines : List (String × ℚ)
  price_sensitivity : ℚ
  rating_preference : ℚ
  delivery_time_preference : ℚ
  order_frequency : ℚ
deriving DecidableEq

/-- The fixed default profile of the `if not orders` branch. -/
def defaultProfile : UserProfile :=
  { avg_order_value := 500
    preferred_cuisines := []
    price_sensitivity := 1/2
    rating_preference := 4
    delivery_time_preference := 30
    order_frequency := 1/10 }

/-- Counter-style increment used for `cuisine_counts` (insertion order of
first occurrence, as in `collections.Counter`). -/
def bumpCount (k : String) : List (String × ℚ) → List (String × ℚ)
  | [] => [(k, 1)]
  | (k2, v) :: rest => if k2 = k then (k2, v + 1) :: rest else (k2, v) :: bumpCount k rest

/-- Accumulator state of the per-order loop of `_build_user_profiles`:
cuisine counts, total ratings, total delivery times, valid restaurant count. -/
structure ProfileAcc where
  counts : List (String × ℚ)
  ratings : ℚ
  deliveries : ℚ
  valid : ℚ
deriving DecidableEq

/-- The per-order catalog-resolution loop of `_build_user_profiles`. -/
def profileScan (catalog : List Restaurant) (orders : List Order) : ProfileAcc :=
  orders.foldl
    (fun acc o =>
      match findCatalog catalog o.restaurant with
      | some r =>
          { counts := bumpCount r.cuisine acc.counts
            ratings := acc.ratings + r.rating
            deliveries := acc.deliveries + parseDeliveryTime r.delivery_time
            valid := acc.valid + 1 }
      | none => acc)
    ⟨[], 0, 0, 0⟩

/-- The non-default branch of `_build_user_profiles` for one user. -/
def buildOneProfile (catalog : List Restaurant) (orders : List Order) : UserProfile :=
  let total_spent : ℚ := (orders.map (·.total)).sum
  let avg_order_value : ℚ := total_spent / (orders.length : ℚ)
  let acc := profileScan catalog orders
  let total_cuisine : ℚ := (acc.counts.map (·.2)).sum
  let cuisine_prefs : List (String × ℚ) :=
    if 0 < total_cuisine then acc.counts.map (fun p => (p.1, p.2 / total_cuisine)) else []
  { avg_order_value := avg_order_value
    preferred_cuisines := cuisine_prefs
    price_sensitivity := min (avg_order_value / 1000) 1
    rating_preference := if 0 < acc.valid then acc.ratings / acc.valid else 4
    delivery_time_preference := if 0 < acc.valid then acc.deliveries / acc.valid else 30
    order_frequency := (orders.length : ℚ) / 30 }

/-- The `_build_user_profiles` method: iterate the interaction-matrix row
index; a user whose order list is empty would get `defaultProfile`. -/
def buildUserProfiles (data : UserData) (catalog : List Restaurant) :
    List (String × UserProfile) :=
  (interactionUsers data).map fun u =>
    let orders := ordersOf data u
    if orders.isEmpty then (u, defaultProfile) else (u, buildOneProfile catalog orders)

/-! ## Sorting helpers

Python's `sorted(..., reverse=True)` is a stable descending sort; it is
modelled by `sortDescBy`. `np.argsort(xs)[::-1]` is an ascending sort of the
index range followed by reversal; the ascending sort is modelled stably by
`sortAscBy` (numpy's default sort degenerates to a stable insertion sort on
the short arrays at hand). -/

/-- Stable descending insertion: place `x` before the first element whose key
is ≤ its own. -/
def insertDescBy (key : α → ℚ) (x : α) : List α → List α
  | [] => [x]
  | y :: ys => if key y ≤ key x then x :: y :: ys else y :: insertDescBy key x ys

/-- Stable descending insertion sort (model of `sorted(..., reverse=True)`). -/
def sortDescBy (key : α → ℚ) : List α → List α
  | [] => []
  | x :: xs => insertDescBy key x (sortDescBy key xs)

/-- Stable ascending insertion: place `x` before the first element whose key
is strictly greater. -/
def insertAscBy (key : α → ℚ) (x : α) : List α → List α
  | [] => [x]
  | y :: ys => if key x ≤ key y then x :: y :: ys else y :: insertAscBy key x ys

/-- Stable ascending insertion sort. -/
def sortAscBy (key : α → ℚ) : List α → List α
  | [] => []
  | x :: xs => insertAscBy key x (sortAscBy key xs)

/-- Model of `np.argsort(vals)[::-1]`: indices of `vals` sorted so that the
values are descending (ties: larger index first, as reversal of a stable
ascending sort gives). -/
def argsortDesc (vals : List ℚ) : List Nat :=
  (sortAscBy (fun i => vals.getD i 0) (List.range vals.length)).reverse

/-! ## Similarity input and collaborative filtering
(`get_collaborative_recommendations`) -/

/-- Row `idx` of the similarity matrix (`self.similarity_matrix[user_idx]`). -/
def userSimilarities (m : List (List ℚ)) (idx : Nat) : List ℚ :=
  m.getD idx []

/-- The `similar_users_idx` selection:
`np.argsort(user_similarities)[::-1][1:6]`. -/
def similarUsersIdx (sims : List ℚ) : List Nat :=
  ((argsortDesc sims).drop 1).take 5

/-- Top-5 most similar users other than the target, written from the spec
words of §4.5 ("the top-5 most similar *other* users, self excluded, ranked
descending by similarity"); compared against `similarUsersIdx` in the
claim-3 theorem. -/
def topOtherUsers (sims : List ℚ) (selfIdx : Nat) : List Nat :=
  (((argsortDesc sims).filter fun j => j ≠ selfIdx)).take 5

/-- The `user_restaurants` set: columns of the target's row holding a value
strictly greater than 0. -/
def userRestaurants (data : UserData) (u : String) : List String :=
  (allRestaurantCols data).filter fun r => 0 < affinity data u r

/-- `defaultdict(float)` accumulation step: add `v` to key `k`, preserving
dict insertion order. -/
def upsert (k : String) (v : ℚ) : List (String × ℚ) → List (String × ℚ)
  | [] => [(k, v)]
  | (k2, v2) :: rest => if k2 = k then (k2, v2 + v) :: rest else (k2, v2) :: upsert k v rest

/-- Inner loop of the collaborative accumulation: walk the matrix columns of
one similar user, adding `similarity × rating` for liked, untried restaurants. -/
def accumOneUser (data : UserData) (cols tried : List String) (simScore : ℚ)
    (simUser : String) (acc : List (String × ℚ)) : List (String × ℚ) :=
  cols.foldl
    (fun acc r =>
      if 0 < affinity data simUser r ∧ r ∉ tried then
        upsert r (simScore * affinity data simUser r) acc
      else acc)
    acc

/-- The `restaurant_scores` accumulation over the selected similar users,
skipping those with similarity ≤ 0. -/
def accumScores (data : UserData) (users : List String) (cols tried : List String)
    (sims : List ℚ) (sel : List Nat) : List (String × ℚ) :=
  sel.foldl
    (fun acc j =>
      let s := sims.getD j 0
      if s ≤ 0 then acc
      else accumOneUser data cols tried s (users.getD j "") acc)
    []

/-- The `_get_restaurant_info` method: catalog entry copy, or the fixed
basic-info dict for restaurants absent from the catalog. -/
def getRestaurantInfo (catalog : List Restaurant) (name : String) : RecInfo :=
  match findCatalog catalog name with
  | some r => restToInfo r
  | none => { name := name, cuisine := "Mixed", rating := 4, delivery_time := "30-40 min" }

/-- Wrap a scored restaurant as the engine does before returning it. -/
def wrapRec (catalog : List Restaurant) (rtype : String) (p : String × ℚ) : RecInfo :=
  { getRestaurantInfo catalog p.1 with
    recommendation_score := some p.2
    recommendation_type := some rtype }

/-- The `get_collaborative_recommendations` method. -/
def getCollaborativeRecommendations (data : UserData) (catalog : List Restaurant)
    (simM : Option (List (List ℚ))) (username : String) (n : Nat) : List RecInfo :=
  match simM with
  | none => []
  | some m =>
      let users := interactionUsers data
      if username ∈ users then
        let sims := userSimilarities m (users.indexOf username)
        let sel := similarUsersIdx sims
        let tried := userRestaurants data username
        let scores := accumScores data users (allRestaurantCols data) tried sims sel
        ((sortDescBy (fun p => p.2) scores).take n).map (wrapRec catalog "collaborative")
      else []

/-! ## Content-based filtering (`get_content_based_recommendations`) -/

/-- Cuisine-preference component of the content score: sum the preference
weights of cuisines whose one-hot column exists and is positive for this
restaurant. -/
def cuisineScore (catalog : List Restaurant) (prefs : List (String × ℚ))
    (cuisine : Option String) : ℚ :=
  prefs.foldl
    (fun acc p =>
      if p.1 ∈ cuisineTypes catalog ∧ cuisine = some p.1 then acc + p.2 else acc)
    0

/-- Content-based score of one restaurant for one user profile. -/
def contentScore (catalog : List Restaurant) (profile : UserProfile) (r : String) : ℚ :=
  let feat := restaurantFeature catalog r
  let rating_score := feat.1 / 5
  let delivery_score := max 0 (1 - |feat.2.1 - profile.delivery_time_preference| / 30)
  rating_score * (3/10) + delivery_score * (2/10)
    + cuisineScore catalog profile.preferred_cuisines feat.2.2 * (5/10)

/-- The `get_content_based_recommendations` method. -/
def getContentBasedRecommendations (data : UserData) (catalog : List Restaurant)
    (username : String) (n : Nat) : List RecInfo :=
  match alookup username (buildUserProfiles data catalog) with
  | none => []
  | some profile =>
      let scores := (featureIndex data catalog).map fun r => (r, contentScore catalog profile r)
      let tried := (ordersOf data username).map (·.restaurant)
      let filtered := scores.filter fun p => p.1 ∉ tried
      ((sortDescBy (fun p => p.2) filtered).take n).map (wrapRec catalog "content_based")

/-! ## Hybrid recommendations (`get_hybrid_recommendations`) -/

/-- A collaborative record entering `all_recommendations`: final score is
`0.6 ×` its recommendation score, type rewritten to hybrid. -/
def collabToHybrid (r : RecInfo) : RecInfo :=
  { r with final_score := some ((r.recommendation_score.getD 0) * (3/5))
           recommendation_type := some "hybrid" }

/-- Dict assignment `all_recommendations[name] = x`: replace in place or
append. -/
def assocSetByName (x : RecInfo) : List RecInfo → List RecInfo
  | [] => [x]
  | y :: ys => if y.name = x.name then x :: ys else y :: assocSetByName x ys

/-- Merge one content-based record into `all_recommendations`: add
`0.4 × score` to an existing entry, else insert it weighted by `0.4`. -/
def hybridAddContent (r : RecInfo) : List RecInfo → List RecInfo
  | [] => [{ r with final_score := some ((r.recommendation_score.getD 0) * (2/5))
                    recommendation_type := some "hybrid" }]
  | y :: ys =>
      if y.name = r.name then
        { y with final_score := some ((y.final_score.getD 0) + (r.recommendation_score.getD 0) * (2/5)) } :: ys
      else y :: hybridAddContent r ys

/-- The combination core of `get_hybrid_recommendations`, as a function of
the two source lists. -/
def hybridCombine (collab content : List RecInfo) : List RecInfo :=
  content.foldl (fun acc r => hybridAddContent r acc)
    (collab.foldl (fun acc r => assocSetByName (collabToHybrid r) acc) [])

/-- The `get_hybrid_recommendations` method. -/
def getHybridRecommendations (data : UserData) (catalog : List Restaurant)
    (simM : Option (List (List ℚ))) (username : String) (n : Nat) : List RecInfo :=
  let collab := getCollaborativeRecommendations data catalog simM username n
  let content := getContentBasedRecommendations data catalog username n
  (sortDescBy (fun r => r.final_score.getD 0) (hybridCombine collab content)).take n

/-! ## Trending recommendations (`get_trending_recommendations`) -/

/-- Recency-decay weight of one order at current day number `now`:
≤ 7 days ago → 1.0, ≤ 30 days ago → 0.5, older → 0.1; unparseable date →
0.1. -/
def trendWeight (now : Int) (date : Option Int) : ℚ :=
  match date with
  | none => 1/10
  | some d => if now - d ≤ 7 then 1 else if now - d ≤ 30 then 1/2 else 1/10

/-- The `restaurant_popularity` accumulation over all users' orders. -/
def trendingScores (data : UserData) (now : Int) : List (String × ℚ) :=
  data.foldl
    (fun acc p => p.2.foldl (fun acc o => upsert o.restaurant (trendWeight now o.date) acc) acc)
    []

/-- The `get_trending_recommendations` method (with `datetime.now()` passed
in as the day number `now`). -/
def getTrendingRecommendations (data : UserData) (catalog : List Restaurant)
    (now : Int) (n : Nat) : List RecInfo :=
  ((sortDescBy (fun p => p.2) (trendingScores data now)).take n).map (wrapRec catalog "trending")

/-! ## Bundled entry point (`get_personalized_recommendations`) -/

/-- The result dict of `get_personalized_recommendations`. -/
structure RecommendationBundle where
  hybrid : List RecInfo
  collaborative : List RecInfo
  content_based : List RecInfo
  trending : List RecInfo
deriving DecidableEq

/-- The `except` branch of `get_personalized_recommendations`: static
catalog slices for hybrid and trending, empty lists otherwise. -/
def personalizedFallback (catalog : List Restaurant) : RecommendationBundle :=
  { hybrid := (catalog.take 6).map restToInfo
    collaborative := []
    content_based := []
    trending := (catalog.take 4).map restToInfo }

/-- The `try` body of `get_personalized_recommendations`. Every component is
a total function of the embedded state, so this is also the value the method
always returns. -/
def getPersonalizedRecommendations (data : UserData) (catalog : List Restaurant)
    (simM : Option (List (List ℚ))) (username : String) (now : Int) :
    RecommendationBundle :=
  { hybrid := getHybridRecommendations data catalog simM username 6
    collaborative := getCollaborativeRecommendations data catalog simM username 4
    content_based := getContentBasedRecommendations data catalog username 4
    trending := getTrendingRecommendations data catalog now 4 }

/-! ## Generic lemmas about the association-list and sorting helpers -/

theorem alookup_eq_none_iff {β : Type} (k : String) :
    ∀ l : List (String × β), alookup k l = none ↔ k ∉ l.map Prod.fst := by
  intro l
  induction l with
  | nil => simp [alookup]
  | cons p t ih =>
      obtain ⟨k2, v⟩ := p
      by_cases h : k2 = k
      · subst h; simp [alookup]
      · simp only [alookup, h, if_false, List.map_cons, List.mem_cons, ih]
        constructor
        · rintro hn (rfl | hm)
          · exact h rfl
          · exact hn hm
        · intro hn hm
          exact hn (Or.inr hm)

theorem alookup_mem {β : Type} (k : String) (v : β) :
    ∀ l : List (String × β), alookup k l = some v → (k, v) ∈ l := by
  intro l
  induction l with
  | nil => simp [alookup]
  | cons p t ih =>
      obtain ⟨k2, v2⟩ := p
      by_cases h : k2 = k
      · subst h
        simp only [alookup, if_true, Option.some.injEq, List.mem_cons]
        rintro rfl
        exact Or.inl rfl
      · simp only [alookup, h, if_false, List.mem_cons]
        intro hm
        exact Or.inr (ih hm)

theorem mem_alookup_of_nodup {β : Type} (k : String) (v : β) :
    ∀ l : List (String × β), (l.map Prod.fst).Nodup → (k, v) ∈ l → alookup k l = some v := by
  intro l
  induction l with
  | nil => simp
  | cons p t ih =>
      obtain ⟨k2, v2⟩ := p
      intro hnd hm
      simp only [List.map_cons, List.nodup_cons] at hnd
      rcases List.mem_cons.mp hm with heq | hm2
      · rw [Prod.mk.injEq] at heq
        obtain ⟨rfl, rfl⟩ := heq
        simp [alookup]
      · have hk : k2 ≠ k := by
          rintro rfl
          exact hnd.1 (List.mem_map.mpr ⟨(k2, v), hm2, rfl⟩)
        simp only [alookup, hk, if_false]
        exact ih hnd.2 hm2

/-! ## Claim 2 (code_bug): delivery-time parsing

`"20-30"` fails Python's `str.isdigit()` (it contains a hyphen), so for every
label of the documented `"<lo>-<hi> min"` shape no numbers are extracted at
all and the function returns the unparseable-default `30.0` — not the average
`(lo+hi)/2` that the code's own comment (`Extract numbers from "25-35 min"
format`) and its two-number branch intend. The two-number branch fires only
when the integers are whitespace-separated. -/

/-- Claim C2: evaluating `_parse_delivery_time` at the failing input
`"20-30 min"` yields the default `30.0` (the claim expects `25.0`); the
single-integer and unparseable cases, and a whitespace-separated two-integer
label, behave as the claim describes. -/
theorem claim2_parse_delivery_time_at_failing_input :
    parseDeliveryTime "20-30 min" = 30
    ∧ parseDeliveryTime "45 min" = 45
    ∧ parseDeliveryTime "soon" = 30
    ∧ parseDeliveryTime "20 30 min" = 25 := by
  have h1 : (splitTokens Char.isWhitespace "20-30 min".toList []).filterMap tokToNat = [] := by
    decide
  have h2 : (splitTokens Char.isWhitespace "45 min".toList []).filterMap tokToNat = [45] := by
    decide
  have h3 : (splitTokens Char.isWhitespace "soon".toList []).filterMap tokToNat = [] := by
    decide
  have h4 : (splitTokens Char.isWhitespace "20 30 min".toList []).filterMap tokToNat = [20, 30] := by
    decide
  refine ⟨?_, ?_, ?_, ?_⟩
  · simp only [parseDeliveryTime]; rw [h1]
  · simp only [parseDeliveryTime]; rw [h2]; norm_num
  · simp only [parseDeliveryTime]; rw [h3]
  · simp only [parseDeliveryTime]; rw [h4]; norm_num

/-! ## Claim 5: interaction weight -/

/-- Status-weight table as the claim states it (spec side of the comparison):
Delivered 1.0, In Transit 0.8, Preparing 0.6, Cancelled 0.1, any other 0.5. -/
def statusWeightSpec (status : String) : ℚ :=
  if status = "Delivered" then 1
  else if status = "In Transit" then 4/5
  else if status = "Preparing" then 3/5
  else if status = "Cancelled" then 1/10
  else 1/2

/-- Claim C5: for every order total ≥ 0 and any status, the interaction
weight equals `1.0 × min(total/500, 2.0) × status_weight` with the claimed
status table, lies in `[0, 2]`, and equals `1.2` for total 600 with status
Delivered. -/
theorem claim5_interaction_weight (total : ℚ) (status : String) (h : 0 ≤ total) :
    calcInteractionWeight total status = 1 * min (total / 500) 2 * statusWeightSpec status
    ∧ 0 ≤ calcInteractionWeight total status
    ∧ calcInteractionWeight total status ≤ 2
    ∧ calcInteractionWeight 600 "Delivered" = 6/5 := by
  have htable : ((alookup status statusWeights).getD (1/2)) = statusWeightSpec status := by
    by_cases h1 : status = "Delivered"
    · subst h1; rfl
    · by_cases h2 : status = "In Transit"
      · subst h2; rfl
      · by_cases h3 : status = "Preparing"
        · subst h3; rfl
        · by_cases h4 : status = "Cancelled"
          · subst h4; rfl
          · have g1 : "Delivered" ≠ status := fun h => h1 h.symm
            have g2 : "In Transit" ≠ status := fun h => h2 h.symm
            have g3 : "Preparing" ≠ status := fun h => h3 h.symm
            have g4 : "Cancelled" ≠ status := fun h => h4 h.symm
            simp [statusWeights, alookup, statusWeightSpec, h1, h2, h3, h4, g1, g2, g3, g4]
  have hvw0 : (0 : ℚ) ≤ min (total / 500) 2 := le_min (by positivity) (by norm_num)
  have hvw2 : min (total / 500) 2 ≤ 2 := min_le_right _ _
  have hsw0 : (0 : ℚ) ≤ statusWeightSpec status := by
    unfold statusWeightSpec; split_ifs <;> norm_num
  have hsw1 : statusWeightSpec status ≤ 1 := by
    unfold statusWeightSpec; split_ifs <;> norm_num
  refine ⟨?_, ?_, ?_, ?_⟩
  · simp only [calcInteractionWeight, htable]
  · simp only [calcInteractionWeight]
    rw [htable]
    have := mul_nonneg hvw0 hsw0
    linarith
  · simp only [calcInteractionWeight]
    rw [htable]
    nlinarith
  · norm_num [calcInteractionWeight, statusWeights, alookup, min_def]

/-- Witness for claim C5 at total 600, status Delivered. -/
theorem claim5_witness :
    (0 : ℚ) ≤ 600
    ∧ (calcInteractionWeight 600 "Delivered"
        = 1 * min ((600 : ℚ) / 500) 2 * statusWeightSpec "Delivered"
      ∧ 0 ≤ calcInteractionWeight 600 "Delivered"
      ∧ calcInteractionWeight 600 "Delivered" ≤ 2
      ∧ calcInteractionWeight 600 "Delivered" = 6/5) :=
  ⟨by norm_num, claim5_interaction_weight 600 "Delivered" (by norm_num)⟩

/-! ## Claim 7: user-message topic detection -/

/-- Claim C7: `add_user_message` detects the topic by first-match-wins
priority matching over the five fixed keyword categories (equivalently the
generic `priorityMatch` over the source-order table), sets `current_topic`
only on a match, keeps the prior topic otherwise, appends exactly one flow
entry, and increments `message_count`; the refund-then-thanks scenario keeps
`refund_request`. -/
theorem claim7_add_user_message (s : ConversationState) (msg now : String) :
    detectTopic msg = priorityMatch (strLower msg) topicTable
    ∧ (addUserMessage s msg now).current_topic =
        (match detectTopic msg with
         | some t => some t
         | none => s.current_topic)
    ∧ (addUserMessage s msg now).message_count = s.message_count + 1
    ∧ (addUserMessage s msg now).conversation_flow
        = s.conversation_flow ++ [⟨"user", msg, now, detectTopic msg⟩]
    ∧ (addUserMessage (addUserMessage initialConversationState
          "I want a refund for order 123" "t1") "thanks" "t2").current_topic
        = some "refund_request" := by
  refine ⟨?_, ?_, ?_, ?_, ?_⟩
  · rfl
  · cases h : detectTopic msg <;> simp [addUserMessage, h]
  · cases h : detectTopic msg <;> simp [addUserMessage, h]
  · cases h : detectTopic msg <;> simp [addUserMessage, h]
  · decide

/-! ## Claim 10: assistant-message frame conditions -/

/-- Claim C10: `add_assistant_message` changes only `last_assistant_message`
and appends exactly one flow entry tagged with the current topic;
`message_count`, `current_topic`, `last_user_message`, `context`, and all
previously recorded flow entries are unchanged. -/
theorem claim10_add_assistant_message (s : ConversationState) (msg now : String) :
    (addAssistantMessage s msg now).message_count = s.message_count
    ∧ (addAssistantMessage s msg now).current_topic = s.current_topic
    ∧ (addAssistantMessage s msg now).last_user_message = s.last_user_message
    ∧ (addAssistantMessage s msg now).context = s.context
    ∧ (addAssistantMessage s msg now).last_assistant_message = some msg
    ∧ (addAssistantMessage s msg now).conversation_flow
        = s.conversation_flow ++ [⟨"assistant", msg, now, s.current_topic⟩] :=
  ⟨rfl, rfl, rfl, rfl, rfl, rfl⟩

/-! ## Permutation and sortedness lemmas for the insertion sorts -/

theorem insertDescBy_perm {α : Type} (key : α → ℚ) (x : α) (l : List α) :
    (insertDescBy key x l).Perm (x :: l) := by
  induction l with
  | nil => exact List.Perm.refl _
  | cons y ys ih =>
      unfold insertDescBy
      by_cases hc : key y ≤ key x
      · rw [if_pos hc]
      · rw [if_neg hc]
        exact (ih.cons y).trans (List.Perm.swap x y ys)

theorem sortDescBy_perm {α : Type} (key : α → ℚ) (l : List α) :
    (sortDescBy key l).Perm l := by
  induction l with
  | nil => exact List.Perm.refl _
  | cons x xs ih =>
      unfold sortDescBy
      exact (insertDescBy_perm key x _).trans (ih.cons x)

theorem insertDescBy_pairwise {α : Type} (key : α → ℚ) (x : α) (l : List α)
    (h : l.Pairwise fun a b => key b ≤ key a) :
    (insertDescBy key x l).Pairwise fun a b => key b ≤ key a := by
  induction l with
  | nil => simp [insertDescBy]
  | cons y ys ih =>
      rw [List.pairwise_cons] at h
      unfold insertDescBy
      by_cases hc : key y ≤ key x
      · rw [if_pos hc]
        refine List.Pairwise.cons ?_ (List.Pairwise.cons h.1 h.2)
        intro z hz
        rcases List.mem_cons.mp hz with rfl | hz2
        · exact hc
        · exact le_trans (h.1 z hz2) hc
      · rw [if_neg hc]
        refine List.Pairwise.cons ?_ (ih h.2)
        intro z hz
        have hz3 := (insertDescBy_perm key x ys).mem_iff.mp hz
        rcases List.mem_cons.mp hz3 with rfl | hz4
        · exact le_of_not_le hc
        · exact h.1 z hz4

theorem sortDescBy_pairwise {α : Type} (key : α → ℚ) (l : List α) :
    (sortDescBy key l).Pairwise fun a b => key b ≤ key a := by
  induction l with
  | nil => simp [sortDescBy]
  | cons x xs ih => exact insertDescBy_pairwise key x _ ih

theorem insertAscBy_perm {α : Type} (key : α → ℚ) (x : α) (l : List α) :
    (insertAscBy key x l).Perm (x :: l) := by
  induction l with
  | nil => exact List.Perm.refl _
  | cons y ys ih =>
      unfold insertAscBy
      by_cases hc : key x ≤ key y
      · rw [if_pos hc]
      · rw [if_neg hc]
        exact (ih.cons y).trans (List.Perm.swap x y ys)

theorem sortAscBy_perm {α : Type} (key : α → ℚ) (l : List α) :
    (sortAscBy key l).Perm l := by
  induction l with
  | nil => exact List.Perm.refl _
  | cons x xs ih =>
      unfold sortAscBy
      exact (insertAscBy_perm key x _).trans (ih.cons x)

theorem insertAscBy_pairwise {α : Type} (key : α → ℚ) (x : α) (l : List α)
    (h : l.Pairwise fun a b => key a ≤ key b) :
    (insertAscBy key x l).Pairwise fun a b => key a ≤ key b := by
  induction l with
  | nil => simp [insertAscBy]
  | cons y ys ih =>
      rw [List.pairwise_cons] at h
      unfold insertAscBy
      by_cases hc : key x ≤ key y
      · rw [if_pos hc]
        refine List.Pairwise.cons ?_ (List.Pairwise.cons h.1 h.2)
        intro z hz
        rcases List.mem_cons.mp hz with rfl | hz2
        · exact hc
        · exact le_trans hc (h.1 z hz2)
      · rw [if_neg hc]
        refine List.Pairwise.cons ?_ (ih h.2)
        intro z hz
        have hz3 := (insertAscBy_perm key x ys).mem_iff.mp hz
        rcases List.mem_cons.mp hz3 with rfl | hz4
        · exact le_of_not_le hc
        · exact h.1 z hz4

theorem sortAscBy_pairwise {α : Type} (key : α → ℚ) (l : List α) :
    (sortAscBy key l).Pairwise fun a b => key a ≤ key b := by
  induction l with
  | nil => simp [sortAscBy]
  | cons x xs ih => exact insertAscBy_pairwise key x _ ih

theorem argsortDesc_perm (vals : List ℚ) :
    (argsortDesc vals).Perm (List.range vals.length) := by
  unfold argsortDesc
  exact (List.reverse_perm _).trans (sortAscBy_perm _ _)

theorem argsortDesc_pairwise (vals : List ℚ) :
    (argsortDesc vals).Pairwise fun i j => vals.getD j 0 ≤ vals.getD i 0 := by
  unfold argsortDesc
  exact List.pairwise_reverse.mpr (sortAscBy_pairwise _ _)

/-! ## Output-length bounds of the four recommenders -/

theorem length_take_le {α : Type} (n : Nat) (l : List α) : (l.take n).length ≤ n := by
  rw [List.length_take]
  exact min_le_left _ _

theorem getCollaborative_length_le (data : UserData) (catalog : List Restaurant)
    (simM : Option (List (List ℚ))) (username : String) (n : Nat) :
    (getCollaborativeRecommendations data catalog simM username n).length ≤ n := by
  unfold getCollaborativeRecommendations
  cases simM with
  | none => simp
  | some m =>
      by_cases h : username ∈ interactionUsers data
      · simp only [h, if_true, List.length_map]
        exact length_take_le n _
      · simp [h]

theorem getContentBased_length_le (data : UserData) (catalog : List Restaurant)
    (username : String) (n : Nat) :
    (getContentBasedRecommendations data catalog username n).length ≤ n := by
  unfold getContentBasedRecommendations
  cases alookup username (buildUserProfiles data catalog) with
  | none => simp
  | some profile =>
      simp only [List.length_map]
      exact length_take_le n _

theorem getHybrid_length_le (data : UserData) (catalog : List Restaurant)
    (simM : Option (List (List ℚ))) (username : String) (n : Nat) :
    (getHybridRecommendations data catalog simM username n).length ≤ n := by
  unfold getHybridRecommendations
  exact length_take_le n _

theorem getTrending_length_le (data : UserData) (catalog : List Restaurant)
    (now : Int) (n : Nat) :
    (getTrendingRecommendations data catalog now n).length ≤ n := by
  unfold getTrendingRecommendations
  simp only [List.length_map]
  exact length_take_le n _

/-! ## Concrete fixtures used by witnesses and counterexamples -/

/-- Two-restaurant demo catalog. -/
def demoCatalog : List Restaurant :=
  [⟨"R1", "Italian", 9/2, "30-40 min"⟩, ⟨"R2", "Chinese", 4, "20-30 min"⟩]

/-- Alice's order history in the demo data. -/
def aliceOrders : List Order := [⟨"R1", 500, "Delivered", some 0⟩]

/-- Demo order data: alice has tried only R1, bob likes R1 and R2. -/
def demoData : UserData :=
  [("alice", aliceOrders),
   ("bob", [⟨"R1", 750, "Delivered", some 0⟩, ⟨"R1", 750, "Delivered", some 0⟩,
            ⟨"R2", 1000, "Delivered", some 0⟩, ⟨"R2", 1000, "Delivered", some 3⟩])]

/-- The cosine similarity matrix of `demoData`'s interaction rows
(rows `(1, 0)` and `(3, 4)`, cosine `3/5`). -/
def demoSim : Option (List (List ℚ)) := some [[1, 3/5], [3/5, 1]]

/-! ## Claim 8: bundled entry point is total, with the stated shape -/

/-- Claim C8: `get_personalized_recommendations` is a total function of the
embedded state (so no exception reaches the caller); it returns the
hybrid(6)/collaborative(4)/content_based(4)/trending(4) bundle, each
component within its size bound, and the `except`-branch fallback consists
of the first 6 (respectively 4) catalog entries for hybrid (trending) with
empty lists for the other two. -/
theorem claim8_personalized_bundle (data : UserData) (catalog : List Restaurant)
    (simM : Option (List (List ℚ))) (username : String) (now : Int) :
    getPersonalizedRecommendations data catalog simM username now =
      { hybrid := getHybridRecommendations data catalog simM username 6
        collaborative := getCollaborativeRecommendations data catalog simM username 4
        content_based := getContentBasedRecommendations data catalog username 4
        trending := getTrendingRecommendations data catalog now 4 }
    ∧ (getPersonalizedRecommendations data catalog simM username now).hybrid.length ≤ 6
    ∧ (getPersonalizedRecommendations data catalog simM username now).collaborative.length ≤ 4
    ∧ (getPersonalizedRecommendations data catalog simM username now).content_based.length ≤ 4
    ∧ (getPersonalizedRecommendations data catalog simM username now).trending.length ≤ 4
    ∧ personalizedFallback catalog =
        { hybrid := (catalog.take 6).map restToInfo
          collaborative := []
          content_based := []
          trending := (catalog.take 4).map restToInfo } :=
  ⟨rfl,
   getHybrid_length_le data catalog simM username 6,
   getCollaborative_length_le data catalog simM username 4,
   getContentBased_length_le data catalog username 4,
   getTrending_length_le data catalog now 4,
   rfl⟩

/-! ## Claim 9 (corrected): determinism depends on the clock

The non-trending components are functions of the data alone, but the
trending component re-reads `datetime.now()` on every call, so two calls
with unchanged data but different clock values can differ (see the
counterexample); with the clock fixed the whole bundle is deterministic. -/

/-- Claim C9 (amended): two calls to `get_personalized_recommendations` with
unchanged data agree on the hybrid, collaborative and content-based
components regardless of the clock, and agree on the whole bundle whenever
the current time is also unchanged. -/
theorem claim9_personalized_deterministic (data : UserData) (catalog : List Restaurant)
    (simM : Option (List (List ℚ))) (username : String) (now1 now2 : Int) :
    (getPersonalizedRecommendations data catalog simM username now1).hybrid
      = (getPersonalizedRecommendations data catalog simM username now2).hybrid
    ∧ (getPersonalizedRecommendations data catalog simM username now1).collaborative
      = (getPersonalizedRecommendations data catalog simM username now2).collaborative
    ∧ (getPersonalizedRecommendations data catalog simM username now1).content_based
      = (getPersonalizedRecommendations data catalog simM username now2).content_based
    ∧ (now1 = now2 →
        getPersonalizedRecommendations data catalog simM username now1
          = getPersonalizedRecommendations data catalog simM username now2) := by
  refine ⟨rfl, rfl, rfl, ?_⟩
  rintro rfl
  rfl

/-- Witness for claim C9 at the demo fixtures, discharging the equal-clock
hypothesis with day number 5. -/
theorem claim9_witness :
    ((getPersonalizedRecommendations demoData demoCatalog demoSim "alice" 5).collaborative
      = (getPersonalizedRecommendations demoData demoCatalog demoSim "alice" 40).collaborative)
    ∧ getPersonalizedRecommendations demoData demoCatalog demoSim "alice" 5
        = getPersonalizedRecommendations demoData demoCatalog demoSim "alice" 5 :=
  ⟨(claim9_personalized_deterministic demoData demoCatalog demoSim "alice" 5 40).2.1,
   (claim9_personalized_deterministic demoData demoCatalog demoSim "alice" 5 5).2.2.2 rfl⟩

/-- Counterexample for claim C9 as stated: with unchanged order history and
catalog, calling `get_personalized_recommendations` at day 5 and at day 40
yields different bundles, because the trending recency weights depend on the
current time (the demo orders are 1.0-weighted at day 5 but 0.1-weighted at
day 40). -/
theorem claim9_counterexample :
    getPersonalizedRecommendations demoData demoCatalog demoSim "alice" 5
      ≠ getPersonalizedRecommendations demoData demoCatalog demoSim "alice" 40 := by
  intro h
  have h2 := congrArg RecommendationBundle.trending h
  simp only [getPersonalizedRecommendations] at h2
  norm_num +decide [getTrendingRecommendations, trendingScores, trendWeight, demoData,
    aliceOrders, demoCatalog, upsert, sortDescBy, insertDescBy, wrapRec, getRestaurantInfo,
    findCatalog, restToInfo, RecInfo.mk.injEq] at h2

/-! ## Claim 1 (corrected): users with empty order history get no profile

The interaction-matrix row index only ever receives a key inside the
per-order loop, so a user whose order history is empty has no row; and
`_build_user_profiles` iterates exactly the row index, so such a user gets
no profile entry at all — the default-profile branch is unreachable for
them. -/

theorem mem_interactionUsers (data : UserData) (u : String) :
    u ∈ interactionUsers data ↔ ∃ os, (u, os) ∈ data ∧ os ≠ [] := by
  unfold interactionUsers
  constructor
  · intro h
    obtain ⟨⟨u2, os⟩, hmem, heq⟩ := List.mem_map.mp h
    obtain ⟨hd, hne⟩ := List.mem_filter.mp hmem
    cases heq
    refine ⟨os, hd, ?_⟩
    intro hnil
    subst hnil
    simp at hne
  · rintro ⟨os, hd, hne⟩
    refine List.mem_map.mpr ⟨(u, os), List.mem_filter.mpr ⟨hd, ?_⟩, rfl⟩
    simpa using hne

theorem buildUserProfiles_keys (data : UserData) (catalog : List Restaurant) :
    (buildUserProfiles data catalog).map Prod.fst = interactionUsers data := by
  unfold buildUserProfiles
  rw [List.map_map]
  have : (Prod.fst ∘ fun u =>
      if (ordersOf data u).isEmpty then (u, defaultProfile)
      else (u, buildOneProfile catalog (ordersOf data u))) = id := by
    funext u
    simp only [Function.comp_apply, apply_ite Prod.fst, ite_self, id_eq]
  rw [this, List.map_id]

/-- Claim C1 (amended): building the user profiles assigns an entry to
exactly the users with at least one order; a user present in the input data
whose order history is empty has no row in the interaction matrix and hence
no profile entry at all (in particular not the default profile, whose branch
is unreachable for such users). -/
theorem claim1_empty_history_profiles (data : UserData) (catalog : List Restaurant)
    (username : String) (hnd : (data.map Prod.fst).Nodup) :
    (alookup username data = some [] →
      alookup username (buildUserProfiles data catalog) = none)
    ∧ (∀ os, alookup username data = some os → os ≠ [] →
        ∃ p, alookup username (buildUserProfiles data catalog) = some p) := by
  constructor
  · intro h
    rw [alookup_eq_none_iff, buildUserProfiles_keys]
    intro hmem
    obtain ⟨os, hos, hne⟩ := (mem_interactionUsers data username).mp hmem
    have h2 := mem_alookup_of_nodup username os data hnd hos
    rw [h] at h2
    exact hne (Option.some.injEq .. ▸ h2.symm ▸ rfl)
  · intro os h hne
    have hmem : username ∈ interactionUsers data :=
      (mem_interactionUsers data username).mpr ⟨os, alookup_mem username os data h, hne⟩
    cases hh : alookup username (buildUserProfiles data catalog) with
    | none =>
        rw [alookup_eq_none_iff, buildUserProfiles_keys] at hh
        exact absurd hmem hh
    | some p => exact ⟨p, rfl⟩

/-- Data with a user (`bob`) present in the input whose order history is
empty. -/
def dataWithEmptyBob : UserData := [("alice", aliceOrders), ("bob", [])]

/-- Counterexample for claim C1 as stated: `bob` is present in the input
data with an empty order history, yet after building the profiles there is
no profile entry for `bob` at all (so in particular not the default
profile). -/
theorem claim1_counterexample :
    alookup "bob" dataWithEmptyBob = some []
    ∧ alookup "bob" (buildUserProfiles dataWithEmptyBob demoCatalog) = none := by
  constructor
  · decide
  · decide

/-- Witness for claim C1 on `dataWithEmptyBob`: empty-history `bob` has no
profile entry, while `alice`, who has an order, has one. -/
theorem claim1_witness :
    (dataWithEmptyBob.map Prod.fst).Nodup
    ∧ alookup "bob" dataWithEmptyBob = some []
    ∧ alookup "bob" (buildUserProfiles dataWithEmptyBob demoCatalog) = none
    ∧ alookup "alice" dataWithEmptyBob = some aliceOrders
    ∧ (∃ p, alookup "alice" (buildUserProfiles dataWithEmptyBob demoCatalog) = some p) :=
  ⟨by decide, by decide,
   (claim1_empty_history_profiles dataWithEmptyBob demoCatalog "bob" (by decide)).1 (by decide),
   rfl,
   (claim1_empty_history_profiles dataWithEmptyBob demoCatalog "alice" (by decide)).2
     aliceOrders rfl (by decide)⟩

/-! ## Claim 6: tried restaurants are never re-recommended -/

theorem foldl_affinity_const (r : String) (l : List Order) (init : ℚ)
    (h : ∀ o ∈ l, o.restaurant ≠ r) :
    (l.foldl (fun acc o =>
      if o.restaurant = r then acc + calcInteractionWeight o.total o.status else acc) init)
      = init := by
  induction l generalizing init with
  | nil => rfl
  | cons o rest ih =>
      simp only [List.foldl_cons]
      rw [if_neg (h o (List.mem_cons_self o rest))]
      exact ih init fun o2 h2 => h o2 (List.mem_cons_of_mem o h2)

theorem affinity_ne_zero_mem (data : UserData) (u r : String)
    (h : affinity data u r ≠ 0) : r ∈ (ordersOf data u).map (·.restaurant) := by
  by_contra hc
  refine h ?_
  unfold affinity
  exact foldl_affinity_const r _ 0 fun o ho => by
    intro he
    exact hc (List.mem_map.mpr ⟨o, ho, he⟩)

theorem mem_allRestaurantCols_of (data : UserData) (u r : String)
    (h : r ∈ (ordersOf data u).map (·.restaurant)) : r ∈ allRestaurantCols data := by
  unfold ordersOf at h
  cases hl : alookup u data with
  | none => rw [hl] at h; simp at h
  | some os =>
      rw [hl] at h
      simp only [Option.getD_some] at h
      obtain ⟨o, ho, rfl⟩ := List.mem_map.mp h
      unfold allRestaurantCols
      rw [List.mem_dedup]
      refine List.mem_flatMap.mpr ⟨(u, os), List.mem_filter.mpr ⟨alookup_mem u os data hl, ?_⟩, ?_⟩
      · have : os ≠ [] := by
          intro hnil
          subst hnil
          simp at ho
        simpa using this
      · exact List.mem_map.mpr ⟨o, ho, rfl⟩

theorem mem_keys_upsert (k : String) (v : ℚ) (a : String) :
    ∀ l : List (String × ℚ),
      a ∈ (upsert k v l).map Prod.fst ↔ a = k ∨ a ∈ l.map Prod.fst := by
  intro l
  induction l with
  | nil => simp [upsert]
  | cons p t ih =>
      obtain ⟨k2, v2⟩ := p
      by_cases h : k2 = k
      · subst h
        simp only [upsert, if_true, List.map_cons, List.mem_cons]
        constructor
        · rintro (rfl | hm)
          · exact Or.inl rfl
          · exact Or.inr (Or.inr hm)
        · rintro (rfl | rfl | hm)
          · exact Or.inl rfl
          · exact Or.inl rfl
          · exact Or.inr hm
      · simp only [upsert, h, if_false, List.map_cons, List.mem_cons, ih]
        tauto

theorem accumOneUser_keys_avoid (data : UserData) (tried : List String) (s : ℚ)
    (su r : String) :
    ∀ (cols : List String) (acc : List (String × ℚ)),
      r ∉ acc.map Prod.fst → (r ∈ tried ∨ r ∉ cols) →
      r ∉ (accumOneUser data cols tried s su acc).map Prod.fst := by
  intro cols
  induction cols with
  | nil => intro acc hacc _; exact hacc
  | cons c rest ih =>
      intro acc hacc hr
      unfold accumOneUser
      simp only [List.foldl_cons]
      have hr2 : r ∈ tried ∨ r ∉ rest := by
        rcases hr with h | h
        · exact Or.inl h
        · exact Or.inr fun hm => h (List.mem_cons_of_mem c hm)
      by_cases hcond : 0 < affinity data su c ∧ c ∉ tried
      · rw [if_pos hcond]
        refine ih (upsert c (s * affinity data su c) acc) ?_ hr2
        rw [mem_keys_upsert]
        rintro (rfl | hm)
        · rcases hr with h | h
          · exact hcond.2 h
          · exact h (List.mem_cons_self _ rest)
        · exact hacc hm
      · rw [if_neg hcond]
        exact ih acc hacc hr2

theorem accumScores_keys_avoid (data : UserData) (users cols tried : List String)
    (sims : List ℚ) (r : String) (hr : r ∈ tried ∨ r ∉ cols) :
    ∀ (sel : List Nat) (acc : List (String × ℚ)), r ∉ acc.map Prod.fst →
      r ∉ (sel.foldl
        (fun acc j =>
          let s := sims.getD j 0
          if s ≤ 0 then acc
          else accumOneUser data cols tried s (users.getD j "") acc)
        acc).map Prod.fst := by
  intro sel
  induction sel with
  | nil => intro acc hacc; exact hacc
  | cons j rest ih =>
      intro acc hacc
      simp only [List.foldl_cons]
      by_cases hs : sims.getD j 0 ≤ 0
      · simp only [hs, if_true]
        exact ih acc hacc
      · simp only [hs, if_false]
        exact ih _ (accumOneUser_keys_avoid data tried _ _ r cols acc hacc hr)

theorem wrapRec_name (catalog : List Restaurant) (t : String) (p : String × ℚ) :
    (wrapRec catalog t p).name = p.1 := by
  unfold wrapRec getRestaurantInfo
  cases hf : findCatalog catalog p.1 with
  | none => rfl
  | some rest =>
      have := List.find?_some hf
      simp only [decide_eq_true_eq] at this
      simp [restToInfo, this]

theorem mem_sorted_take_keys (key : String × ℚ → ℚ) (scores : List (String × ℚ))
    (n : Nat) (p : String × ℚ) (hp : p ∈ (sortDescBy key scores).take n) :
    p.1 ∈ scores.map Prod.fst := by
  have h1 : p ∈ sortDescBy key scores := List.mem_of_mem_take hp
  have h2 : p ∈ scores := (sortDescBy_perm key scores).mem_iff.mp h1
  exact List.mem_map.mpr ⟨p, h2, rfl⟩

/-- Claim C6: a restaurant with strictly positive affinity in the user's own
interaction-matrix row never appears in the collaborative or content-based
recommendations for that user. -/
theorem claim6_tried_never_recommended (data : UserData) (catalog : List Restaurant)
    (simM : Option (List (List ℚ))) (username : String) (n : Nat) (r : String)
    (h : 0 < affinity data username r) :
    (∀ e ∈ getCollaborativeRecommendations data catalog simM username n, e.name ≠ r)
    ∧ (∀ e ∈ getContentBasedRecommendations data catalog username n, e.name ≠ r) := by
  have hmemord : r ∈ (ordersOf data username).map (·.restaurant) :=
    affinity_ne_zero_mem data username r (ne_of_gt h)
  constructor
  · intro e he
    unfold getCollaborativeRecommendations at he
    cases simM with
    | none => simp at he
    | some m =>
        by_cases hu : username ∈ interactionUsers data
        · simp only [hu, if_true] at he
          obtain ⟨p, hp, rfl⟩ := List.mem_map.mp he
          rw [wrapRec_name]
          intro hpr
          have hkeys : p.1 ∈ (accumScores data (interactionUsers data)
              (allRestaurantCols data) (userRestaurants data username)
              (userSimilarities m ((interactionUsers data).indexOf username))
              (similarUsersIdx (userSimilarities m ((interactionUsers data).indexOf username)))).map
                Prod.fst :=
            mem_sorted_take_keys _ _ n p hp
          have htried : r ∈ userRestaurants data username := by
            unfold userRestaurants
            exact List.mem_filter.mpr
              ⟨mem_allRestaurantCols_of data username r hmemord, by simpa using h⟩
          rw [hpr] at hkeys
          exact accumScores_keys_avoid data (interactionUsers data) (allRestaurantCols data)
            (userRestaurants data username) _ r (Or.inl htried) _ [] (by simp) hkeys
        · simp [hu] at he
  · intro e he
    unfold getContentBasedRecommendations at he
    cases hprof : alookup username (buildUserProfiles data catalog) with
    | none => rw [hprof] at he; simp at he
    | some profile =>
        rw [hprof] at he
        simp only at he
        obtain ⟨p, hp, rfl⟩ := List.mem_map.mp he
        rw [wrapRec_name]
        intro hpr
        have h1 : p ∈ sortDescBy (fun p => p.2)
            (((featureIndex data catalog).map fun s => (s, contentScore catalog profile s)).filter
              fun p => p.1 ∉ (ordersOf data username).map (·.restaurant)) :=
          List.mem_of_mem_take hp
        have h2 := (sortDescBy_perm _ _).mem_iff.mp h1
        have h3 := (List.mem_filter.mp h2).2
        rw [hpr] at h3
        simp only [decide_eq_true_eq] at h3
        exact h3 hmemord

/-- Witness for claim C6 at the demo fixtures: alice has positive affinity
for R1, and R1 appears in neither recommendation list computed for her. -/
theorem claim6_witness :
    0 < affinity demoData "alice" "R1"
    ∧ (∀ e ∈ getCollaborativeRecommendations demoData demoCatalog demoSim "alice" 4,
        e.name ≠ "R1")
    ∧ (∀ e ∈ getContentBasedRecommendations demoData demoCatalog "alice" 4, e.name ≠ "R1") := by
  have h : 0 < affinity demoData "alice" "R1" := by
    norm_num [affinity, ordersOf, alookup, demoData, aliceOrders, calcInteractionWeight,
      statusWeights, min_def]
  exact ⟨h, (claim6_tried_never_recommended demoData demoCatalog demoSim "alice" 4 "R1" h).1,
    (claim6_tried_never_recommended demoData demoCatalog demoSim "alice" 4 "R1" h).2⟩

/-! ## Claim 3 (corrected): collaborative-filtering selection mechanics

`np.argsort(user_similarities)[::-1][1:6]` drops only the *first* position
of the similarity-descending order, on the presumption that the target user
sorts first. When another user's similarity ties the target's self-similarity
the target can land behind it and survive the slice, so the target user
itself may sit among the 5 selected indices (see the counterexample). The
target still never contributes any score — each of its positively rated
restaurants is excluded as already tried — and with no tie the slice is
exactly the top-5 other users. The guard clauses return `[]` as claimed. -/

theorem foldl_filter_id {α β : Type} (f : β → α → β) (p : α → Bool) :
    ∀ (l : List α), (∀ x ∈ l, p x = false → ∀ acc, f acc x = acc) →
      ∀ init : β, l.foldl f init = (l.filter p).foldl f init := by
  intro l
  induction l with
  | nil => intro _ init; rfl
  | cons x rest ih =>
      intro h init
      simp only [List.foldl_cons, List.filter_cons]
      cases hp : p x with
      | true =>
          simp only [if_true]
          exact ih (fun z hz => h z (List.mem_cons_of_mem x hz)) (f init x)
      | false =>
          simp only [Bool.false_eq_true, if_false]
          rw [h x (List.mem_cons_self x rest) hp init]
          exact ih (fun z hz => h z (List.mem_cons_of_mem x hz)) init

theorem accumOneUser_id (data : UserData) (tried : List String) (s : ℚ) (su : String) :
    ∀ (cols : List String) (acc : List (String × ℚ)),
      (∀ c ∈ cols, 0 < affinity data su c → c ∈ tried) →
      accumOneUser data cols tried s su acc = acc := by
  intro cols
  induction cols with
  | nil => intro acc _; rfl
  | cons c rest ih =>
      intro acc h
      unfold accumOneUser
      simp only [List.foldl_cons]
      rw [if_neg]
      · exact ih acc fun z hz => h z (List.mem_cons_of_mem c hz)
      · rintro ⟨hpos, hnt⟩
        exact hnt (h c (List.mem_cons_self c rest) hpos)

theorem getD_indexOf_self (l : List String) (a : String) (h : a ∈ l) :
    l.getD (l.indexOf a) "" = a := by
  rw [List.getD_eq_getElem l "" (by rwa [List.indexOf_lt_length])]
  exact List.getElem_indexOf _

theorem similarUsersIdx_eq_topOtherUsers_of_strict_max (sims : List ℚ) (idx : Nat)
    (hlen : idx < sims.length)
    (hmax : ∀ j < sims.length, j ≠ idx → sims.getD j 0 < sims.getD idx 0) :
    similarUsersIdx sims = topOtherUsers sims idx := by
  have hperm := argsortDesc_perm sims
  have hnodup : (argsortDesc sims).Nodup := hperm.symm.nodup (List.nodup_range _)
  have hidx : idx ∈ argsortDesc sims := hperm.mem_iff.mpr (List.mem_range.mpr hlen)
  cases hdesc : argsortDesc sims with
  | nil => rw [hdesc] at hidx; simp at hidx
  | cons h t =>
      have hpw := argsortDesc_pairwise sims
      rw [hdesc] at hpw hidx hnodup hperm
      have hh : h = idx := by
        by_contra hne
        have hhlen : h < sims.length :=
          List.mem_range.mp (hperm.mem_iff.mp (List.mem_cons_self h t))
        have hlt : sims.getD h 0 < sims.getD idx 0 := hmax h hhlen hne
        rcases List.mem_cons.mp hidx with rfl | hin
        · exact hne rfl
        · have hle := (List.pairwise_cons.mp hpw).1 idx hin
          linarith
      have hni : idx ∉ t := by
        rw [hh] at hnodup
        exact (List.nodup_cons.mp hnodup).1
      rw [hh] at hdesc
      have hfil : t.filter (fun j => decide (j ≠ idx)) = t := by
        rw [List.filter_eq_self]
        intro z hz
        rw [decide_eq_true_eq]
        intro hzeq
        exact hni (hzeq ▸ hz)
      unfold similarUsersIdx topOtherUsers
      rw [hdesc, List.drop_one, List.tail_cons, List.filter_cons]
      rw [if_neg (by simp)]
      rw [hfil]

/-- Claim C3 (amended): the guard clauses of
`get_collaborative_recommendations` return the empty list when the
similarity matrix is absent or the user has no interaction-matrix row; the
score accumulation receives contributions only from selected users other
than the target with strictly positive similarity (dropping the target
index and the non-positive similarities from the selection changes
nothing); and whenever no other user ties the target's self-similarity the
selected five indices are exactly the top-5 other users in descending
similarity order. (As stated the claim fails: under a tie at self-similarity
the target user itself can remain among the 5 selected indices — see the
counterexample — though it still contributes no score.) -/
theorem claim3_collaborative_selection (data : UserData) (catalog : List Restaurant)
    (m : List (List ℚ)) (username : String) (n : Nat) :
    getCollaborativeRecommendations data catalog none username n = []
    ∧ (username ∉ interactionUsers data →
        getCollaborativeRecommendations data catalog (some m) username n = [])
    ∧ (username ∈ interactionUsers data →
        accumScores data (interactionUsers data) (allRestaurantCols data)
            (userRestaurants data username)
            (userSimilarities m ((interactionUsers data).indexOf username))
            (similarUsersIdx (userSimilarities m ((interactionUsers data).indexOf username)))
          = accumScores data (interactionUsers data) (allRestaurantCols data)
              (userRestaurants data username)
              (userSimilarities m ((interactionUsers data).indexOf username))
              ((similarUsersIdx (userSimilarities m ((interactionUsers data).indexOf username))).filter
                fun j => decide (0 < (userSimilarities m ((interactionUsers data).indexOf username)).getD j 0
                  ∧ j ≠ (interactionUsers data).indexOf username)))
    ∧ ((interactionUsers data).indexOf username
          < (userSimilarities m ((interactionUsers data).indexOf username)).length →
        (∀ j < (userSimilarities m ((interactionUsers data).indexOf username)).length,
          j ≠ (interactionUsers data).indexOf username →
          (userSimilarities m ((interactionUsers data).indexOf username)).getD j 0
            < (userSimilarities m ((interactionUsers data).indexOf username)).getD
                ((interactionUsers data).indexOf username) 0) →
        similarUsersIdx (userSimilarities m ((interactionUsers data).indexOf username))
          = topOtherUsers (userSimilarities m ((interactionUsers data).indexOf username))
              ((interactionUsers data).indexOf username)) := by
  refine ⟨rfl, ?_, ?_, ?_⟩
  · intro hu
    unfold getCollaborativeRecommendations
    simp [hu]
  · intro hu
    unfold accumScores
    apply foldl_filter_id
    intro j _ hp acc
    simp only [decide_eq_false_iff_not, not_and_or, not_lt, not_not] at hp
    rcases hp with hs | hj
    · simp only [hs, if_true]
    · by_cases hs : (userSimilarities m ((interactionUsers data).indexOf username)).getD j 0 ≤ 0
      · simp only [hs, if_true]
      · simp only [hs, if_false]
        subst hj
        rw [getD_indexOf_self (interactionUsers data) username hu]
        apply accumOneUser_id
        intro c hc hpos
        unfold userRestaurants
        exact List.mem_filter.mpr ⟨hc, by simpa using hpos⟩
  · intro hlen hmax
    exact similarUsersIdx_eq_topOtherUsers_of_strict_max _ _ hlen hmax

/-- Interaction data with two users whose affinity rows are proportional
(`(1)` and `(2)` over the single column R1), so their cosine similarity
ties the self-similarity at exactly 1. -/
def tieData : UserData :=
  [("A", [⟨"R1", 500, "Delivered", some 0⟩]), ("B", [⟨"R1", 1000, "Delivered", some 0⟩])]

/-- Counterexample for claim C3 as stated: on `tieData` the true cosine
similarity matrix is `[[1, 1], [1, 1]]` (the affinity rows `(1)` and `(2)`
are proportional), and the 5-element slice selected for user A contains A's
own index — the target user is among the 5 selected users, refuting "the
target user is never among the 5 contributing users, even when another
user's similarity ties the self-similarity of 1". -/
theorem claim3_counterexample :
    affinity tieData "A" "R1" = 1
    ∧ affinity tieData "B" "R1" = 2
    ∧ (interactionUsers tieData).indexOf "A" = 0
    ∧ (interactionUsers tieData).indexOf "A"
        ∈ similarUsersIdx (userSimilarities [[1, 1], [1, 1]]
            ((interactionUsers tieData).indexOf "A")) := by
  refine ⟨?_, ?_, by decide, ?_⟩
  · norm_num +decide [affinity, ordersOf, alookup, tieData, calcInteractionWeight,
      statusWeights, min_def]
  · norm_num +decide [affinity, ordersOf, alookup, tieData, calcInteractionWeight,
      statusWeights, min_def]
  · norm_num +decide [similarUsersIdx, argsortDesc, sortAscBy, insertAscBy, userSimilarities,
      tieData, interactionUsers, List.range]

/-- Witness for claim C3 at the demo fixtures: alice's similarity row is
`[1, 3/5]`, the strict-max hypothesis holds, and the selected users equal
the top-5 other users. -/
theorem claim3_witness :
    ("alice" ∉ interactionUsers demoData →
      getCollaborativeRecommendations demoData demoCatalog (some [[1, 3/5], [3/5, 1]]) "alice" 4 = [])
    ∧ ("alice" ∈ interactionUsers demoData)
    ∧ similarUsersIdx (userSimilarities [[1, 3/5], [3/5, 1]]
          ((interactionUsers demoData).indexOf "alice"))
        = topOtherUsers (userSimilarities [[1, 3/5], [3/5, 1]]
            ((interactionUsers demoData).indexOf "alice"))
            ((interactionUsers demoData).indexOf "alice") := by
  have hmem : "alice" ∈ interactionUsers demoData := by decide
  have hlen : (interactionUsers demoData).indexOf "alice"
      < (userSimilarities [[1, 3/5], [3/5, 1]] ((interactionUsers demoData).indexOf "alice")).length := by
    decide
  have hmax : ∀ j < (userSimilarities [[1, 3/5], [3/5, 1]]
        ((interactionUsers demoData).indexOf "alice")).length,
      j ≠ (interactionUsers demoData).indexOf "alice" →
      (userSimilarities [[1, 3/5], [3/5, 1]] ((interactionUsers demoData).indexOf "alice")).getD j 0
        < (userSimilarities [[1, 3/5], [3/5, 1]] ((interactionUsers demoData).indexOf "alice")).getD
            ((interactionUsers demoData).indexOf "alice") 0 := by
    intro j hj hne
    have hidx : (interactionUsers demoData).indexOf "alice" = 0 := by decide
    rw [hidx] at hj hne ⊢
    have hlen2 : (userSimilarities [[(1 : ℚ), 3/5], [3/5, 1]] 0).length = 2 := by decide
    rw [hlen2] at hj
    interval_cases j
    · exact absurd rfl hne
    · norm_num [userSimilarities]
  exact ⟨(claim3_collaborative_selection demoData demoCatalog [[1, 3/5], [3/5, 1]] "alice" 4).2.1,
    hmem,
    (claim3_collaborative_selection demoData demoCatalog [[1, 3/5], [3/5, 1]] "alice" 4).2.2.2
      hlen hmax⟩

/-! ## Claim 4: hybrid score combination

Infrastructure: the collaborative and content-based outputs carry pairwise
distinct restaurant names (their score dicts have unique keys), and the
`all_recommendations` dict merge is characterized entry by entry. -/

theorem nodup_keys_upsert (k : String) (v : ℚ) :
    ∀ l : List (String × ℚ), (l.map Prod.fst).Nodup → ((upsert k v l).map Prod.fst).Nodup := by
  intro l
  induction l with
  | nil => intro _; simp [upsert]
  | cons p t ih =>
      obtain ⟨k2, v2⟩ := p
      intro hnd
      simp only [List.map_cons, List.nodup_cons] at hnd
      by_cases h : k2 = k
      · subst h
        simp only [upsert, if_true, List.map_cons, List.nodup_cons]
        exact hnd
      · simp only [upsert, h, if_false, List.map_cons, List.nodup_cons]
        refine ⟨?_, ih hnd.2⟩
        rw [mem_keys_upsert]
        rintro (rfl | hm)
        · exact h rfl
        · exact hnd.1 hm

theorem nodup_keys_accumOneUser (data : UserData) (tried : List String) (s : ℚ)
    (su : String) :
    ∀ (cols : List String) (acc : List (String × ℚ)),
      (acc.map Prod.fst).Nodup → ((accumOneUser data cols tried s su acc).map Prod.fst).Nodup := by
  intro cols
  induction cols with
  | nil => intro acc h; exact h
  | cons c rest ih =>
      intro acc h
      unfold accumOneUser
      simp only [List.foldl_cons]
      by_cases hcond : 0 < affinity data su c ∧ c ∉ tried
      · rw [if_pos hcond]
        exact ih _ (nodup_keys_upsert c _ acc h)
      · rw [if_neg hcond]
        exact ih acc h

theorem nodup_keys_accumScores (data : UserData) (users cols tried : List String)
    (sims : List ℚ) (sel : List Nat) :
    ((accumScores data users cols tried sims sel).map Prod.fst).Nodup := by
  unfold accumScores
  suffices h : ∀ (sel2 : List Nat) (acc : List (String × ℚ)), (acc.map Prod.fst).Nodup →
      ((sel2.foldl
        (fun acc j =>
          let s := sims.getD j 0
          if s ≤ 0 then acc
          else accumOneUser data cols tried s (users.getD j "") acc)
        acc).map Prod.fst).Nodup by
    exact h sel [] (by simp)
  intro sel2
  induction sel2 with
  | nil => intro acc h; exact h
  | cons j rest ih =>
      intro acc h
      simp only [List.foldl_cons]
      by_cases hs : sims.getD j 0 ≤ 0
      · simp only [hs, if_true]
        exact ih acc h
      · simp only [hs, if_false]
        exact ih _ (nodup_keys_accumOneUser data tried _ _ cols acc h)

theorem names_wrap_take (catalog : List Restaurant) (t : String) (n : Nat)
    (l : List (String × ℚ)) :
    ((l.take n).map (wrapRec catalog t)).map (·.name) = (l.take n).map Prod.fst := by
  rw [List.map_map]
  exact List.map_congr_left fun p _ => wrapRec_name catalog t p

theorem nodup_names_sorted_take (catalog : List Restaurant) (t : String) (n : Nat)
    (key : String × ℚ → ℚ) (scores : List (String × ℚ)) (h : (scores.map Prod.fst).Nodup) :
    ((((sortDescBy key scores).take n).map (wrapRec catalog t)).map (·.name)).Nodup := by
  rw [names_wrap_take]
  have h2 : ((sortDescBy key scores).map Prod.fst).Nodup :=
    (((sortDescBy_perm key scores).map Prod.fst).symm).nodup h
  exact (List.Sublist.map Prod.fst (List.take_sublist n _)).nodup h2

theorem collab_names_nodup (data : UserData) (catalog : List Restaurant)
    (simM : Option (List (List ℚ))) (username : String) (n : Nat) :
    ((getCollaborativeRecommendations data catalog simM username n).map (·.name)).Nodup := by
  unfold getCollaborativeRecommendations
  cases simM with
  | none => simp
  | some m =>
      by_cases hu : username ∈ interactionUsers data
      · simp only [hu, if_true]
        exact nodup_names_sorted_take catalog _ n _ _ (nodup_keys_accumScores data _ _ _ _ _)
      · simp [hu]

theorem content_names_nodup (data : UserData) (catalog : List Restaurant)
    (username : String) (n : Nat) :
    ((getContentBasedRecommendations data catalog username n).map (·.name)).Nodup := by
  unfold getContentBasedRecommendations
  cases alookup username (buildUserProfiles data catalog) with
  | none => simp
  | some profile =>
      apply nodup_names_sorted_take
      have h1 : (((featureIndex data catalog).map
          fun r => (r, contentScore catalog profile r)).map Prod.fst).Nodup := by
        rw [List.map_map]
        have : (Prod.fst ∘ fun r => (r, contentScore catalog profile r)) = id := rfl
        rw [this, List.map_id]
        exact List.Nodup.filter _ (List.nodup_dedup _)
      exact (List.Sublist.map Prod.fst (List.filter_sublist _)).nodup h1

theorem mem_names_hybridAddContent (b : RecInfo) (x : String) :
    ∀ acc : List RecInfo,
      (x ∈ (hybridAddContent b acc).map (·.name)) ↔ x = b.name ∨ x ∈ acc.map (·.name) := by
  intro acc
  induction acc with
  | nil => simp [hybridAddContent]
  | cons y ys ih =>
      simp only [hybridAddContent]
      by_cases hy : y.name = b.name
      · rw [if_pos hy]
        simp only [List.map_cons, List.mem_cons, hy]
        tauto
      · rw [if_neg hy]
        simp only [List.map_cons, List.mem_cons, ih]
        tauto

theorem nodup_names_hybridAddContent (b : RecInfo) :
    ∀ acc : List RecInfo, ((acc.map (·.name)).Nodup) →
      (((hybridAddContent b acc).map (·.name)).Nodup) := by
  intro acc
  induction acc with
  | nil => intro _; simp [hybridAddContent]
  | cons y ys ih =>
      intro hnd
      simp only [List.map_cons, List.nodup_cons] at hnd
      simp only [hybridAddContent]
      by_cases hy : y.name = b.name
      · rw [if_pos hy]
        simp only [List.map_cons, List.nodup_cons]
        exact hnd
      · rw [if_neg hy]
        simp only [List.map_cons, List.nodup_cons]
        refine ⟨?_, ih hnd.2⟩
        rw [mem_names_hybridAddContent]
        rintro (heq | hm)
        · exact hy heq
        · exact hnd.1 hm

/-- The record produced when a content recommendation `b` merges into an
existing `all_recommendations` entry `a`. -/
def mergedContent (a b : RecInfo) : RecInfo :=
  { a with final_score := some ((a.final_score.getD 0) + (b.recommendation_score.getD 0) * (2/5)) }

/-- The record produced when a content recommendation `b` enters
`all_recommendations` on its own. -/
def contentOnly (b : RecInfo) : RecInfo :=
  { b with final_score := some ((b.recommendation_score.getD 0) * (2/5))
           recommendation_type := some "hybrid" }

theorem hybridAddContent_eq (b : RecInfo) (y : RecInfo) (ys : List RecInfo) :
    hybridAddContent b (y :: ys) =
      if y.name = b.name then mergedContent y b :: ys else y :: hybridAddContent b ys := rfl

theorem hybridAddContent_find_same (b : RecInfo) :
    ∀ acc : List RecInfo,
      (hybridAddContent b acc).find? (fun x => x.name = b.name) =
        some (match acc.find? (fun x => x.name = b.name) with
          | some a => mergedContent a b
          | none => contentOnly b) := by
  intro acc
  induction acc with
  | nil =>
      simp only [hybridAddContent, List.find?_nil]
      rw [List.find?_cons_of_pos _ (by simp [contentOnly])]
      rfl
  | cons y ys ih =>
      rw [hybridAddContent_eq]
      by_cases hy : y.name = b.name
      · rw [if_pos hy]
        rw [List.find?_cons_of_pos _ (by simp [mergedContent, hy]),
          List.find?_cons_of_pos _ (by simp [hy])]
      · rw [if_neg hy]
        rw [List.find?_cons_of_neg _ (by simpa using hy),
          List.find?_cons_of_neg _ (by simpa using hy)]
        exact ih

theorem hybridAddContent_find_other (b : RecInfo) (x : String) (hx : x ≠ b.name) :
    ∀ acc : List RecInfo,
      (hybridAddContent b acc).find? (fun y => y.name = x) =
        acc.find? (fun y => y.name = x) := by
  intro acc
  induction acc with
  | nil =>
      simp only [hybridAddContent, List.find?_nil]
      rw [List.find?_cons_of_neg _ (by simp [contentOnly]; exact fun h => hx h.symm),
        List.find?_nil]
  | cons y ys ih =>
      rw [hybridAddContent_eq]
      by_cases hy : y.name = b.name
      · rw [if_pos hy]
        have hyx : ¬ y.name = x := fun h => hx (h.symm.trans hy)
        rw [List.find?_cons_of_neg _ (by simpa [mergedContent] using hyx),
          List.find?_cons_of_neg _ (by simpa using hyx)]
      · rw [if_neg hy]
        by_cases hyx : y.name = x
        · rw [List.find?_cons_of_pos _ (by simpa using hyx),
            List.find?_cons_of_pos _ (by simpa using hyx)]
        · rw [List.find?_cons_of_neg _ (by simpa using hyx),
            List.find?_cons_of_neg _ (by simpa using hyx)]
          exact ih

theorem find_name_self (e : RecInfo) :
    ∀ acc : List RecInfo, ((acc.map (·.name)).Nodup) → e ∈ acc →
      acc.find? (fun x => x.name = e.name) = some e := by
  intro acc
  induction acc with
  | nil => simp
  | cons y ys ih =>
      intro hnd hm
      simp only [List.map_cons, List.nodup_cons] at hnd
      rcases List.mem_cons.mp hm with rfl | hm2
      · exact List.find?_cons_of_pos _ (by simp)
      · have hy : y.name ≠ e.name := by
          intro heq
          exact hnd.1 (heq ▸ List.mem_map.mpr ⟨e, hm2, rfl⟩)
        rw [List.find?_cons_of_neg _ (by simpa using hy)]
        exact ih hnd.2 hm2

theorem collab_fold_eq_map (collab : List RecInfo) :
    ∀ acc : List RecInfo,
      (∀ x ∈ collab, x.name ∉ acc.map (·.name)) →
      ((collab.map (·.name)).Nodup) →
      collab.foldl (fun acc r => assocSetByName (collabToHybrid r) acc) acc
        = acc ++ collab.map collabToHybrid := by
  induction collab with
  | nil => intro acc _ _; simp
  | cons r rest ih =>
      intro acc hdisj hnd
      simp only [List.map_cons, List.nodup_cons] at hnd
      have hset : assocSetByName (collabToHybrid r) acc = acc ++ [collabToHybrid r] := by
        have hr : r.name ∉ acc.map (·.name) := hdisj r (List.mem_cons_self r rest)
        clear hdisj ih
        induction acc with
        | nil => rfl
        | cons y ys ih2 =>
            simp only [List.map_cons, List.mem_cons] at hr
            push_neg at hr
            unfold assocSetByName
            rw [if_neg (by exact fun h => hr.1 (by simpa [collabToHybrid] using h.symm))]
            rw [ih2 hr.2]
            simp
      simp only [List.foldl_cons, hset]
      rw [ih (acc ++ [collabToHybrid r]) ?_ hnd.2]
      · simp
      · intro x hx
        rw [List.map_append, List.mem_append]
        rintro (hm | hm)
        · exact hdisj x (List.mem_cons_of_mem r hx) hm
        · simp only [List.map_cons, List.map_nil, List.mem_singleton, collabToHybrid] at hm
          exact hnd.1 (hm ▸ List.mem_map.mpr ⟨x, hx, rfl⟩)

theorem hybrid_fold_spec (content : List RecInfo) :
    ∀ acc : List RecInfo,
      ((content.map (·.name)).Nodup) → ((acc.map (·.name)).Nodup) →
      ∀ e ∈ content.foldl (fun a r => hybridAddContent r a) acc,
        (match acc.find? (fun x => x.name = e.name),
               content.find? (fun x => x.name = e.name) with
         | some a, some b => e = mergedContent a b
         | some a, none => e = a
         | none, some b => e = contentOnly b
         | none, none => False) := by
  induction content with
  | nil =>
      intro acc _ hacc e he
      simp only [List.foldl_nil] at he
      rw [List.find?_nil, find_name_self e acc hacc he]
  | cons b rest ih =>
      intro acc hcont hacc e he
      simp only [List.map_cons, List.nodup_cons] at hcont
      simp only [List.foldl_cons] at he
      have hih := ih (hybridAddContent b acc) hcont.2
        (nodup_names_hybridAddContent b acc hacc) e he
      by_cases heq : e.name = b.name
      · have hrest : rest.find? (fun x => x.name = e.name) = none := by
          rw [List.find?_eq_none]
          intro x hx
          simp only [decide_eq_true_eq]
          intro hxe
          exact hcont.1 (heq ▸ hxe ▸ List.mem_map.mpr ⟨x, hx, rfl⟩)
        rw [hrest] at hih
        rw [List.find?_cons_of_pos _ (by simp [heq])]
        rw [show (fun x : RecInfo => decide (x.name = e.name))
              = (fun x : RecInfo => decide (x.name = b.name)) from by rw [heq]] at hih ⊢
        rw [hybridAddContent_find_same b acc] at hih
        cases hfa : acc.find? (fun x => x.name = b.name) with
        | none => rw [hfa] at hih; exact hih
        | some a => rw [hfa] at hih; exact hih
      · rw [List.find?_cons_of_neg _ (by simpa using fun h => heq h.symm)]
        rw [hybridAddContent_find_other b e.name heq acc] at hih
        exact hih

/-- Claim C4: every restaurant in the hybrid output carries final score
`0.6 × collaborative + 0.4 × content` when its name appears in both source
lists (computed with the same `n`), and `0.6 ×` (respectively `0.4 ×`) the
single source score when it appears in only one; the combined list is sorted
descending by that score and truncated to `n`. -/
theorem claim4_hybrid_score_combination (data : UserData) (catalog : List Restaurant)
    (simM : Option (List (List ℚ))) (username : String) (n : Nat) (e : RecInfo)
    (he : e ∈ getHybridRecommendations data catalog simM username n) :
    (match (getCollaborativeRecommendations data catalog simM username n).find?
             (fun c => c.name = e.name),
           (getContentBasedRecommendations data catalog username n).find?
             (fun c => c.name = e.name) with
     | some c, some b =>
         e.final_score = some ((c.recommendation_score.getD 0) * (3/5)
           + (b.recommendation_score.getD 0) * (2/5))
     | some c, none => e.final_score = some ((c.recommendation_score.getD 0) * (3/5))
     | none, some b => e.final_score = some ((b.recommendation_score.getD 0) * (2/5))
     | none, none => False)
    ∧ (getHybridRecommendations data catalog simM username n).Pairwise
        (fun a b => b.final_score.getD 0 ≤ a.final_score.getD 0)
    ∧ (getHybridRecommendations data catalog simM username n).length ≤ n := by
  refine ⟨?_, ?_, getHybrid_length_le data catalog simM username n⟩
  · have he2 : e ∈ hybridCombine (getCollaborativeRecommendations data catalog simM username n)
        (getContentBasedRecommendations data catalog username n) := by
      unfold getHybridRecommendations at he
      exact (sortDescBy_perm _ _).mem_iff.mp (List.mem_of_mem_take he)
    have hcn := collab_names_nodup data catalog simM username n
    have hbn := content_names_nodup data catalog username n
    have hacc0 : (getCollaborativeRecommendations data catalog simM username n).foldl
        (fun acc r => assocSetByName (collabToHybrid r) acc) []
          = (getCollaborativeRecommendations data catalog simM username n).map collabToHybrid := by
      rw [collab_fold_eq_map _ [] (by simp) hcn]
      simp
    have haccnd : (((getCollaborativeRecommendations data catalog simM username n).map
        collabToHybrid).map (·.name)).Nodup := by
      rw [List.map_map]
      have : ((fun x : RecInfo => x.name) ∘ collabToHybrid)
          = (fun x : RecInfo => x.name) := by
        funext c
        simp [collabToHybrid]
      rw [this]
      exact hcn
    unfold hybridCombine at he2
    rw [hacc0] at he2
    have hspec := hybrid_fold_spec _ _ hbn haccnd e he2
    have hpred : ((fun x : RecInfo => decide (x.name = e.name)) ∘ collabToHybrid)
        = (fun c : RecInfo => decide (c.name = e.name)) := by
      funext c
      simp [collabToHybrid]
    rw [List.find?_map, hpred] at hspec
    cases hfc : (getCollaborativeRecommendations data catalog simM username n).find?
        (fun c => c.name = e.name) with
    | none =>
        rw [hfc] at hspec
        simp only [Option.map_none'] at hspec
        cases hfb : (getContentBasedRecommendations data catalog username n).find?
            (fun c => c.name = e.name) with
        | none => rw [hfb] at hspec; exact hspec
        | some b =>
            rw [hfb] at hspec
            rw [hspec]
            simp [contentOnly]
    | some c =>
        rw [hfc] at hspec
        simp only [Option.map_some'] at hspec
        cases hfb : (getContentBasedRecommendations data catalog username n).find?
            (fun c => c.name = e.name) with
        | none =>
            rw [hfb] at hspec
            rw [hspec]
            simp [collabToHybrid]
        | some b =>
            rw [hfb] at hspec
            rw [hspec]
            simp [mergedContent, collabToHybrid]
  · unfold getHybridRecommendations
    exact List.Pairwise.sublist (List.take_sublist n _) (sortDescBy_pairwise _ _)

/-- The single collaborative recommendation computed for alice on the demo
fixtures (R2 with score `(3/5) × 4 = 12/5`). -/
def collabDemoRec : RecInfo :=
  { name := "R2", cuisine := "Chinese", rating := 4, delivery_time := "20-30 min"
    recommendation_score := some (12/5), recommendation_type := some "collaborative" }

/-- The single content-based recommendation computed for alice on the demo
fixtures (R2 with score `11/25`). -/
def contentDemoRec : RecInfo :=
  { name := "R2", cuisine := "Chinese", rating := 4, delivery_time := "20-30 min"
    recommendation_score := some (11/25), recommendation_type := some "content_based" }

/-- The single hybrid recommendation for alice on the demo fixtures:
final score `(12/5)·(3/5) + (11/25)·(2/5) = 202/125`. -/
def hybridDemoRec : RecInfo :=
  { name := "R2", cuisine := "Chinese", rating := 4, delivery_time := "20-30 min"
    recommendation_score := some (12/5), final_score := some (202/125)
    recommendation_type := some "hybrid" }

theorem demo_collab_eval : getCollaborativeRecommendations demoData demoCatalog demoSim "alice" 8
    = [collabDemoRec] := by
  norm_num +decide [getCollaborativeRecommendations, demoSim, interactionUsers, demoData,
    aliceOrders, userSimilarities, similarUsersIdx, argsortDesc, sortAscBy, insertAscBy,
    userRestaurants, allRestaurantCols, affinity, ordersOf, alookup, calcInteractionWeight,
    statusWeights, min_def, accumScores, accumOneUser, upsert, sortDescBy, insertDescBy,
    wrapRec, getRestaurantInfo, findCatalog, demoCatalog, restToInfo, collabDemoRec]

theorem demo_content_eval : getContentBasedRecommendations demoData demoCatalog "alice" 8
    = [contentDemoRec] := by
  norm_num +decide [getContentBasedRecommendations, buildUserProfiles, buildOneProfile,
    profileScan, bumpCount, findCatalog, demoCatalog, demoData, aliceOrders, interactionUsers,
    ordersOf, alookup, parseDeliveryTime, splitTokens, tokToNat, featureIndex, cuisineTypes,
    restaurantFeature, contentScore, cuisineScore, min_def, max_def, abs, sortDescBy,
    insertDescBy, wrapRec, getRestaurantInfo, restToInfo, contentDemoRec, List.dedup]

theorem demo_hybrid_eval : getHybridRecommendations demoData demoCatalog demoSim "alice" 8
    = [hybridDemoRec] := by
  unfold getHybridRecommendations
  rw [demo_collab_eval, demo_content_eval]
  norm_num +decide [hybridCombine, hybridAddContent, assocSetByName, collabToHybrid,
    collabDemoRec, contentDemoRec, hybridDemoRec, sortDescBy, insertDescBy, mergedContent]

/-- Witness for claim C4: on the demo fixtures the hybrid record for R2 is in
the output, R2 appears in both source lists, and its final score is
`0.6 × 12/5 + 0.4 × 11/25 = 202/125`. -/
theorem claim4_witness :
    hybridDemoRec ∈ getHybridRecommendations demoData demoCatalog demoSim "alice" 8
    ∧ (match (getCollaborativeRecommendations demoData demoCatalog demoSim "alice" 8).find?
             (fun c => c.name = hybridDemoRec.name),
           (getContentBasedRecommendations demoData demoCatalog "alice" 8).find?
             (fun c => c.name = hybridDemoRec.name) with
     | some c, some b =>
         hybridDemoRec.final_score = some ((c.recommendation_score.getD 0) * (3/5)
           + (b.recommendation_score.getD 0) * (2/5))
     | some c, none => hybridDemoRec.final_score = some ((c.recommendation_score.getD 0) * (3/5))
     | none, some b => hybridDemoRec.final_score = some ((b.recommendation_score.getD 0) * (2/5))
     | none, none => False) := by
  have hm : hybridDemoRec ∈ getHybridRecommendations demoData demoCatalog demoSim "alice" 8 := by
    rw [demo_hybrid_eval]
    exact List.mem_singleton.mpr rfl
  exact ⟨hm, (claim4_hybrid_score_combination demoData demoCatalog demoSim "alice" 8
    hybridDemoRec hm).1⟩

end CSChat
